import Mathlib

/-!
Verification development for the core of `pykrx-openapi`: the request rate
limiter (`src/pykrx_openapi/rate_limiter.py`) and the field-conversion engine
(`src/pykrx_openapi/converters.py`, with the pattern tables of
`src/pykrx_openapi/constants.py`).

Modelling conventions of the shallow embedding:
* Python strings are modelled as `List Char` (`PyStr`); string helpers such as
  `str.strip`, `str.isdigit`, `str.upper` are modelled on ASCII characters
  (the field names of the repository and the values of the API are ASCII).
* Wall-clock instants and durations are modelled as rationals (`ℚ`).
* A fallible operation (the `self.calls[0]` subscript, which would raise
  `IndexError` on an empty list) is modelled with `Option`; an exception that
  escapes `convert_field` is modelled with `Except PyError`.
* The CPython `float(str)` builtin is modelled by an exact decimal parser
  followed by correct rounding to an IEEE binary64 value (round to nearest,
  ties to even, subnormals included), with literals beyond the double range
  overflowing to infinity, plus the `inf`/`infinity`/`nan` literals; a finite
  double is represented by its exact rational value.  `int(float)` truncation
  toward zero is `pyTrunc`.
-/

/-- A Python `str`, modelled as its sequence of characters. -/
abbrev PyStr := List Char

/-- Whitespace as stripped by the Python `str.strip()` method (ASCII fragment):
space, tab, newline, carriage return, vertical tab, form feed. -/
def pyIsSpace (c : Char) : Bool :=
  c = ' ' || c = '\t' || c = '\n' || c = '\r' || c = '\x0b' || c = '\x0c'

/-- Python `str.strip()` (ASCII whitespace model): drop whitespace from both
ends. -/
def pyStrip (s : PyStr) : PyStr :=
  ((s.dropWhile pyIsSpace).reverse.dropWhile pyIsSpace).reverse

/-- Python `str.upper()` (ASCII model). -/
def pyUpper (s : PyStr) : PyStr := s.map Char.toUpper

/-- Numeric value of a string of ASCII decimal digits, most significant
first (the value `int` computes on an all-digit string). -/
def natOfDigits (s : PyStr) : ℕ :=
  s.foldl (fun a c => 10 * a + (c.toNat - 48)) 0

/-! ## The pattern tables of `constants.py` -/

/-- `DATE_FIELD_PATTERNS = ["DD", "DT", "DATE"]` from `constants.py`. -/
def DATE_FIELD_PATTERNS : List PyStr :=
  ["DD".toList, "DT".toList, "DATE".toList]

/-- `NUMERIC_FIELD_PATTERNS` from `constants.py`: the ordered
category-to-substring-list table (Python `dict`s preserve insertion order). -/
def NUMERIC_FIELD_PATTERNS : List (PyStr × List PyStr) :=
  [ ("price".toList,
      ["PRC".toList, "PRICE".toList, "CLSPRC".toList, "OPNPRC".toList,
       "HGPRC".toList, "LWPRC".toList, "PARVAL".toList, "SETL_PRC".toList]),
    ("volume".toList,
      ["VOL".toList, "TRDVOL".toList, "QTY".toList, "OPNINT_QTY".toList,
       "SHRS".toList]),
    ("amount".toList,
      ["AMT".toList, "VAL".toList, "TRDVAL".toList, "CAP".toList]),
    ("index".toList, ["IDX".toList, "INDEX".toList]),
    ("rate".toList, ["RT".toList, "RATE".toList, "FLUC_RT".toList]),
    ("ratio".toList, ["RATIO".toList]),
    ("count".toList, ["CNT".toList, "COUNT".toList]) ]

/-! ## Date parsing (`datetime.strptime(value, "%Y%m%d")`) -/

/-- Leap-year test of the Gregorian calendar (`calendar.isleap`). -/
def isLeapYear (y : ℕ) : Bool :=
  y % 4 = 0 && (y % 100 ≠ 0 || y % 400 = 0)

/-- Number of days in month `m` of year `y`. -/
def daysInMonth (y m : ℕ) : ℕ :=
  if m = 2 then (if isLeapYear y then 29 else 28)
  else if m = 4 || m = 6 || m = 9 || m = 11 then 30
  else 31

/-- Validity of a `(year, month, day)` triple for `datetime`:
`MINYEAR = 1 ≤ year ≤ 9999 = MAXYEAR`, month and day in calendar range. -/
def isValidYmd (y m d : ℕ) : Bool :=
  1 ≤ y && y ≤ 9999 && 1 ≤ m && m ≤ 12 && 1 ≤ d && d ≤ daysInMonth y m

/-- The guarded date parse in the date branch of `convert_field`:
`len(value) == 8 and value.isdigit()` followed by
`datetime.strptime(value, "%Y%m%d")`.  Returns the `(year, month, day)` of
the resulting `datetime` (its time part is midnight), or `none` when the
guard fails or `strptime` raises `ValueError` (invalid calendar date). -/
def strptimeYmd (value : PyStr) : Option (ℕ × ℕ × ℕ) :=
  if value.length = 8 && value.all Char.isDigit then
    if isValidYmd (natOfDigits (value.take 4))
        (natOfDigits ((value.drop 4).take 2)) (natOfDigits (value.drop 6)) then
      some (natOfDigits (value.take 4), natOfDigits ((value.drop 4).take 2),
            natOfDigits (value.drop 6))
    else none
  else none

/-- The `for pattern in DATE_FIELD_PATTERNS` loop head: scan the patterns in
order and stop at the first one that is a suffix of `field_name` (the loop
body ends in `break`, so at most one pattern is ever tried). -/
def dateFieldMatch (field_name : PyStr) : List PyStr → Bool
  | [] => false
  | p :: ps =>
    if p.isSuffixOf field_name then true else dateFieldMatch field_name ps

/-! ## CPython `float(str)` model -/

/-- Result of `float(str)`: a finite value (exact rational in this model),
a signed infinity, or a NaN. -/
inductive PyFloat where
  | finite (q : ℚ)
  | inf (neg : Bool)
  | nan
deriving DecidableEq, Repr

/-- Consume the tail of a digit group: digits, with single underscores
allowed between digits (CPython numeric-literal underscores).  Returns the
digits read (underscores removed) and the unconsumed rest. -/
def digitTail : List Char → List Char × List Char
  | [] => ([], [])
  | [c] => if c.isDigit then ([c], []) else ([], [c])
  | c :: d :: rest =>
    if c.isDigit then
      let p := digitTail (d :: rest)
      (c :: p.1, p.2)
    else if c = '_' && d.isDigit then
      let p := digitTail rest
      (d :: p.1, p.2)
    else ([], c :: d :: rest)

/-- Consume one `digitpart` (must start with a digit); `none` if the input
does not start with a digit. -/
def takeDigitPart (l : List Char) : Option (List Char × List Char) :=
  match l with
  | c :: _ => if c.isDigit then some (digitTail l) else none
  | [] => none

/-- Value of an integer part and a fraction part read as decimal digits:
`intPart.fracPart` as an exact rational. -/
def ratOfDigits (intPart fracPart : List Char) : ℚ :=
  mkRat (Int.ofNat (natOfDigits (intPart ++ fracPart))) (10 ^ fracPart.length)

/-- The exact rational `m * 10 ^ e` for an integer exponent `e` (the value
of a scientific-notation literal). -/
def scalePow10 (m : ℚ) (e : ℤ) : ℚ :=
  if 0 ≤ e then mkRat (m.num * Int.ofNat (10 ^ e.toNat)) m.den
  else mkRat m.num (m.den * 10 ^ (-e).toNat)

/-- Parse the `pointfloat | digitpart` portion of a float literal:
`digits [. [digits]]` or `. digits`.  Returns the value and the rest. -/
def parseNumber (l : List Char) : Option (ℚ × List Char) :=
  match takeDigitPart l with
  | some (ds, rest) =>
    match rest with
    | '.' :: rest2 =>
      match takeDigitPart rest2 with
      | some (fs, rest3) => some (ratOfDigits ds fs, rest3)
      | none => some (ratOfDigits ds [], rest2)
    | _ => some (ratOfDigits ds [], rest)
  | none =>
    match l with
    | '.' :: rest2 =>
      match takeDigitPart rest2 with
      | some (fs, rest3) => some (ratOfDigits [] fs, rest3)
      | none => none
    | _ => none

/-- Parse an exponent clause `("e"|"E") ["+"|"-"] digits`. -/
def parseExponent (l : List Char) : Option (ℤ × List Char) :=
  match l with
  | e :: rest =>
    if e = 'e' || e = 'E' then
      match rest with
      | '+' :: r2 =>
        (takeDigitPart r2).map (fun p => (Int.ofNat (natOfDigits p.1), p.2))
      | '-' :: r2 =>
        (takeDigitPart r2).map (fun p => (-Int.ofNat (natOfDigits p.1), p.2))
      | _ =>
        (takeDigitPart rest).map (fun p => (Int.ofNat (natOfDigits p.1), p.2))
    else none
  | [] => none

/-- Parse an unsigned, non-`inf`/`nan` float body: a number with an optional
exponent, consuming the whole input. -/
def parseFloatBody (l : List Char) : Option ℚ :=
  match parseNumber l with
  | some (m, rest) =>
    match rest with
    | [] => some m
    | _ =>
      match parseExponent rest with
      | some (e, []) => some (scalePow10 m e)
      | _ => none
  | none => none

/-- Round-half-to-even of the fraction `nn / dd` (with `dd > 0`): the
integer nearest to `nn / dd`, ties going to the even integer. -/
def roundHalfEven (nn dd : ℕ) : ℕ :=
  if 2 * (nn % dd) < dd then nn / dd
  else if dd < 2 * (nn % dd) then nn / dd + 1
  else if (nn / dd) % 2 = 0 then nn / dd else nn / dd + 1

/-- Floor base-2 logarithm, structurally recursive on a fuel argument so
that the kernel can evaluate it; inputs of 64 bits or more are consumed a
word at a time (`⌊log2 n⌋ = ⌊log2 ⌊n / 2^64⌋⌋ + 64` there), so the
recursion depth stays small even for the huge values scientific-notation
literals can denote. -/
def log2Aux : ℕ → ℕ → ℕ
  | 0, _ => 0
  | fuel + 1, n =>
    if 18446744073709551616 ≤ n then log2Aux fuel (n / 18446744073709551616) + 64
    else if 2 ≤ n then log2Aux fuel (n / 2) + 1
    else 0

/-- `⌊log2 n⌋` for `n ≥ 1` (and `0` at `0`): the fuel `n` always suffices,
since the argument at least halves each step. -/
def natLog2 (n : ℕ) : ℕ := log2Aux n n

/-- Whether `2 ^ e ≤ a / b` for naturals `a, b > 0` and an integer
exponent `e`. -/
def le2pow (e : ℤ) (a b : ℕ) : Bool :=
  if 0 ≤ e then b * 2 ^ e.toNat ≤ a else b ≤ a * 2 ^ (-e).toNat

/-- The binade exponent `⌊log2 (a / b)⌋` of a positive rational `a / b`:
the bit-length difference of `a` and `b` is off by at most one, fixed up by
one comparison. -/
def binadeExp (a b : ℕ) : ℤ :=
  if le2pow (Int.ofNat (natLog2 a) - Int.ofNat (natLog2 b)) a b then
    Int.ofNat (natLog2 a) - Int.ofNat (natLog2 b)
  else Int.ofNat (natLog2 a) - Int.ofNat (natLog2 b) - 1

/-- Round the positive rational `a / b` (`a, b > 0`) to the IEEE binary64
grid with round-to-nearest, ties-to-even: the quantum is `2 ^ (e - 52)` for
binade exponent `e`, clamped below to the subnormal quantum `2 ^ (-1074)`;
the result is the exact value of the nearest double, or `none` when the
rounded value reaches `2 ^ 1024` and the conversion overflows to
infinity. -/
def roundPosToDouble (a b : ℕ) : Option ℚ :=
  if binadeExp a b - 52 < -1074 then
    some (mkRat (Int.ofNat (roundHalfEven (a * 2 ^ 1074) b)) (2 ^ 1074))
  else if 0 ≤ binadeExp a b - 52 then
    if 2 ^ 1024 ≤
        roundHalfEven a (b * 2 ^ (binadeExp a b - 52).toNat) *
          2 ^ (binadeExp a b - 52).toNat then none
    else
      some (mkRat (Int.ofNat (roundHalfEven a (b * 2 ^ (binadeExp a b - 52).toNat) *
        2 ^ (binadeExp a b - 52).toNat)) 1)
  else
    some (mkRat
      (Int.ofNat (roundHalfEven (a * 2 ^ (-(binadeExp a b - 52)).toNat) b))
      (2 ^ (-(binadeExp a b - 52)).toNat))

/-- The IEEE binary64 value CPython produces for the exact non-negative
decimal value `q` of a float literal: the correctly rounded
(nearest, ties-to-even) double, or positive infinity on overflow. -/
def roundDouble (q : ℚ) : PyFloat :=
  if q.num = 0 then .finite (mkRat 0 1)
  else
    match roundPosToDouble q.num.toNat q.den with
    | some r => .finite r
    | none => .inf false

/-- Negation of a float (`-x`). -/
def pyNeg : PyFloat → PyFloat
  | .finite r => .finite (mkRat (-r.num) r.den)
  | .inf b => .inf (!b)
  | .nan => .nan

/-- CPython `float(str)` on an already-stripped argument (the only call site,
`convert_field`, strips first): optional sign, then `inf`/`infinity`/`nan`
(case-insensitive) or a decimal literal with optional fraction and exponent,
correctly rounded to an IEEE binary64 value — literals beyond the double
range (such as `"1e999"`) overflow to infinity, as CPython returns. -/
def pyFloatParse (l : List Char) : Option PyFloat :=
  let sb : Bool × List Char :=
    match l with
    | '+' :: r => (false, r)
    | '-' :: r => (true, r)
    | _ => (false, l)
  let low := sb.2.map Char.toLower
  if low = "inf".toList || low = "infinity".toList then some (.inf sb.1)
  else if low = "nan".toList then some .nan
  else
    match parseFloatBody sb.2 with
    | some q => some (if sb.1 then pyNeg (roundDouble q) else roundDouble q)
    | none => none

/-- Truncation toward zero of a rational: the value of `int(f)` for a finite
float `f` (the numerator divided by the denominator, rounding toward zero). -/
def pyTrunc (q : ℚ) : ℤ := Int.tdiv q.num (Int.ofNat q.den)

/-! ## `convert_field`, `convert_record`, `convert_response` -/

/-- A value returned by `convert_field`: `int`, `float`, `datetime`
(represented by its calendar date; the time part is always midnight),
`str`, or `None`. -/
inductive Value where
  | vInt (n : ℤ)
  | vFloat (f : PyFloat)
  | vDate (y m d : ℕ)
  | vStr (s : PyStr)
  | vNone
deriving DecidableEq, Repr

/-- An exception escaping `convert_field`.  The `except (ValueError,
AttributeError)` clause does not catch `OverflowError`, raised by
`int(float(x))` when `float(x)` is infinite. -/
inductive PyError where
  | overflowError
deriving DecidableEq, Repr

/-- The `for pattern_type, patterns in NUMERIC_FIELD_PATTERNS.items()` loop:
find the first category one of whose substring patterns occurs in the
uppercased field name (the inner loop returns from the function on the first
hit, so the first matching category wins). -/
def findNumericCategory (fieldUpper : PyStr) :
    List (PyStr × List PyStr) → Option PyStr
  | [] => none
  | (cat, pats) :: rest =>
    if pats.any (fun p => decide (p <:+: fieldUpper)) then some cat
    else findNumericCategory fieldUpper rest

/-- The numeric-conversion / string-passthrough tail of `convert_field`
(everything after the date branch): find the first matching numeric
category; strip commas and whitespace; `int(float(clean_value))` for
`volume`/`count` (a `ValueError` — unparsable or NaN — is caught and the
original `value` returned; an infinite intermediate raises an uncaught
`OverflowError`), `float(clean_value)` otherwise (a `ValueError` is caught
and the original `value` returned); with no category match, return `value`
unchanged. -/
def numericOrString (field_name value : PyStr) : Except PyError Value :=
  match findNumericCategory (pyUpper field_name) NUMERIC_FIELD_PATTERNS with
  | some cat =>
    if cat = "volume".toList || cat = "count".toList then
      match pyFloatParse (pyStrip (value.filter (fun c => c ≠ ','))) with
      | some (.finite q) => .ok (.vInt (pyTrunc q))
      | some (.inf _) => .error .overflowError
      | some .nan => .ok (.vStr value)
      | none => .ok (.vStr value)
    else
      match pyFloatParse (pyStrip (value.filter (fun c => c ≠ ','))) with
      | some f => .ok (.vFloat f)
      | none => .ok (.vStr value)
  | none => .ok (.vStr value)

/-- `convert_field(field_name, value)` of `converters.py`:
1. empty / all-whitespace / `"-"` values become `None`;
2. if the field name ends with a date pattern, try the 8-digit `YYYYMMDD`
   parse, returning the date on success and falling through on failure;
3. otherwise the numeric / passthrough rules of `numericOrString`. -/
def convert_field (field_name value : PyStr) : Except PyError Value :=
  if value = [] || pyStrip value = [] || pyStrip value = "-".toList then
    .ok .vNone
  else if dateFieldMatch field_name DATE_FIELD_PATTERNS then
    match strptimeYmd value with
    | some (y, m, d) => .ok (.vDate y m d)
    | none => numericOrString field_name value
  else numericOrString field_name value

/-- `convert_record(record)`: convert every field of a record (modelled as an
insertion-ordered association list, as a Python `dict` is) with
`convert_field`; an exception raised on any entry propagates. -/
def convert_record : List (PyStr × PyStr) → Except PyError (List (PyStr × Value))
  | [] => .ok []
  | (f, v) :: rest =>
    match convert_field f v with
    | .error e => .error e
    | .ok x =>
      match convert_record rest with
      | .error e => .error e
      | .ok xs => .ok ((f, x) :: xs)

/-- `convert_response(data)`: convert every record of a response list. -/
def convert_response : List (List (PyStr × PyStr)) →
    Except PyError (List (List (PyStr × Value)))
  | [] => .ok []
  | r :: rest =>
    match convert_record r with
    | .error e => .error e
    | .ok x =>
      match convert_response rest with
      | .error e => .error e
      | .ok xs => .ok (x :: xs)

/-- Decidable equality of conversion outcomes, for concrete evaluation. -/
instance {ε α : Type} [DecidableEq ε] [DecidableEq α] :
    DecidableEq (Except ε α) := fun a b =>
  match a, b with
  | .ok x, .ok y => decidable_of_iff (x = y) (by simp)
  | .error x, .error y => decidable_of_iff (x = y) (by simp)
  | .ok _, .error _ => isFalse (by simp)
  | .error _, .ok _ => isFalse (by simp)

/-! ## The rate limiter (`rate_limiter.py`) -/

/-- The configuration of `RateLimiter.__init__`: `max_calls` (a Python int)
and `period` (seconds).  The mutable `self.calls` timestamp list is passed
explicitly through `wait_if_needed`. -/
structure RateLimiter where
  max_calls : ℤ
  period : ℚ
deriving DecidableEq, Repr

/-- The pruning comprehension
`self.calls = [c for c in self.calls if c > now - self.period]`. -/
def prune (rl : RateLimiter) (calls : List ℚ) (now : ℚ) : List ℚ :=
  calls.filter (fun c => decide (now - rl.period < c))

/-- Observable outcome of one `wait_if_needed` call: the history immediately
after the (possible) sleep and before the new call is recorded, whether a
sleep happened and for how long, and the final history. -/
structure StepResult where
  preAppend : List ℚ
  slept : Bool
  sleepTime : ℚ
  calls : List ℚ
deriving DecidableEq, Repr

/-- `RateLimiter.wait_if_needed`, one call, under the lock.  `now` is the
first `time.time()` reading; `tAfter` is the reading appended at the end
(taken after the sleep, if any).  The `self.calls[0]` subscript is modelled
with `List.get?`: `none` models the `IndexError` it would raise on an empty
list. -/
def wait_if_needed (rl : RateLimiter) (calls : List ℚ) (now tAfter : ℚ) :
    Option StepResult :=
  if rl.max_calls ≤ ((prune rl calls now).length : ℤ) then
    match (prune rl calls now)[0]? with
    | none => none
    | some oldest =>
      if 0 < rl.period - (now - oldest) then
        some ⟨[], true, rl.period - (now - oldest), [tAfter]⟩
      else some ⟨prune rl calls now, false, 0, prune rl calls now ++ [tAfter]⟩
  else some ⟨prune rl calls now, false, 0, prune rl calls now ++ [tAfter]⟩

/-- Histories reachable by a sequence of `wait_if_needed` calls from the
freshly constructed limiter (`self.calls = []`), at arbitrary call times. -/
inductive Reaches (rl : RateLimiter) : List ℚ → Prop
  | init : Reaches rl []
  | step {calls : List ℚ} {now tAfter : ℚ} {r : StepResult} :
      Reaches rl calls → wait_if_needed rl calls now tAfter = some r →
      Reaches rl r.calls

/-- Number of recorded timestamps lying in the trailing window
`(t - period, t]` at instant `t`. -/
def windowCount (period : ℚ) (calls : List ℚ) (t : ℚ) : ℕ :=
  (calls.filter (fun c => decide (t - period < c ∧ c ≤ t))).length

/-- `n` successive `wait_if_needed` calls issued with no delay between them
(all time readings equal to `τ`), starting from the empty history.  Returns
the final history and whether any of the calls slept. -/
def repeatCalls (rl : RateLimiter) (τ : ℚ) : ℕ → Option (List ℚ × Bool)
  | 0 => some ([], false)
  | n + 1 =>
    match repeatCalls rl τ n with
    | some (cs, b) =>
      match wait_if_needed rl cs τ τ with
      | some r => some (r.calls, b || r.slept)
      | none => none
    | none => none

/-! ## Helper lemmas: rate limiter -/

/-- Every timestamp kept by the pruning step is strictly inside the window,
so the sleep time computed from it is strictly positive. -/
theorem prune_mem_window {rl : RateLimiter} {calls : List ℚ} {now c : ℚ}
    (h : c ∈ prune rl calls now) : now - rl.period < c := by
  have := List.of_mem_filter h
  simpa using this

/-- After any successful `wait_if_needed` step, the recorded history holds at
most `max_calls` timestamps (provided `max_calls ≥ 1`). -/
theorem step_length_le (rl : RateLimiter) (h1 : 1 ≤ rl.max_calls)
    {calls : List ℚ} {now tAfter : ℚ} {r : StepResult}
    (h : wait_if_needed rl calls now tAfter = some r) :
    (r.calls.length : ℤ) ≤ rl.max_calls := by
  unfold wait_if_needed at h
  split at h
  · rename_i hc
    cases hp : prune rl calls now with
    | nil => rw [hp] at h; simp at h
    | cons c cs =>
      rw [hp] at h
      have hpos : 0 < rl.period - (now - c) := by
        have hmem : c ∈ prune rl calls now := by
          rw [hp]; exact List.mem_cons_self c cs
        have := prune_mem_window hmem
        linarith
      simp only [List.getElem?_cons_zero, if_pos hpos] at h
      cases h
      simpa using h1
  · rename_i hc
    cases h
    simp only [List.length_append, List.length_cons, List.length_nil]
    push_cast
    omega

/-- The count of timestamps in any window is at most the history length. -/
theorem windowCount_le_length (period : ℚ) (calls : List ℚ) (t : ℚ) :
    windowCount period calls t ≤ calls.length :=
  List.length_filter_le _ _

/-- C1: for every RateLimiter with `max_calls ≥ 1` and `period > 0`, and
every sequence of `wait_if_needed` calls at arbitrary call times, at every
instant the count of recorded timestamps lying within the trailing window of
length `period` never exceeds `max_calls`. -/
theorem rate_window_invariant (rl : RateLimiter)
    (h1 : 1 ≤ rl.max_calls) (h2 : 0 < rl.period)
    {calls : List ℚ} (hr : Reaches rl calls) (t : ℚ) :
    (windowCount rl.period calls t : ℤ) ≤ rl.max_calls := by
  induction hr with
  | init => simp [windowCount]; omega
  | step hprev hstep ih =>
    rename_i cs now tAfter r
    calc (windowCount rl.period r.calls t : ℤ)
        ≤ (r.calls.length : ℤ) := by
          exact_mod_cast windowCount_le_length rl.period r.calls t
      _ ≤ rl.max_calls := step_length_le rl h1 hstep

/-- Witness for C1: a concretely reached one-element history stays within a
`max_calls = 2` budget. -/
theorem rate_window_invariant_witness :
    (windowCount 10 [0] 5 : ℤ) ≤ 2 := by
  have hstep : wait_if_needed ⟨2, 10⟩ [] 0 0 =
      some ⟨[], false, 0, [0]⟩ := by decide
  exact rate_window_invariant ⟨2, 10⟩ (by decide) (by norm_num)
    (Reaches.step Reaches.init hstep) 5

/-- C4: an acquisition that finds the pruned history at the limit always
computes a strictly positive wait, and immediately after the wait — before
the new call is recorded — the timestamp history is reset to the empty list
(a full-window reset: the final history holds only the new call). -/
theorem forced_wait_full_reset (rl : RateLimiter)
    {calls : List ℚ} {now tAfter : ℚ} {r : StepResult}
    (h : wait_if_needed rl calls now tAfter = some r)
    (hlimit : rl.max_calls ≤ ((prune rl calls now).length : ℤ))
    (hw : 0 < rl.period - (now - (prune rl calls now).headD 0)) :
    r.slept = true ∧
      r.sleepTime = rl.period - (now - (prune rl calls now).headD 0) ∧
      r.preAppend = [] ∧ r.calls = [tAfter] := by
  unfold wait_if_needed at h
  rw [if_pos hlimit] at h
  cases hp : prune rl calls now with
  | nil => rw [hp] at h; simp at h
  | cons c cs =>
    rw [hp] at h hw
    simp only [List.headD_cons] at hw ⊢
    simp only [List.getElem?_cons_zero, if_pos hw] at h
    cases h
    exact ⟨rfl, rfl, rfl, rfl⟩

/-- Witness for C4: with `max_calls = 1`, `period = 10`, history `[5]` and a
call at `now = 6`, the limiter sleeps `9` and resets before recording. -/
theorem forced_wait_full_reset_witness :
    (⟨[], true, 9, [15]⟩ : StepResult).slept = true ∧
      (⟨[], true, 9, [15]⟩ : StepResult).sleepTime =
        (10 : ℚ) - (6 - (prune ⟨1, 10⟩ [5] 6).headD 0) ∧
      (⟨[], true, 9, [15]⟩ : StepResult).preAppend = [] ∧
      (⟨[], true, 9, [15]⟩ : StepResult).calls = [15] := by
  have hp : prune ⟨1, 10⟩ [5] 6 = [5] := by
    unfold prune
    rw [List.filter_cons]
    norm_num
  have h : wait_if_needed ⟨1, 10⟩ [5] 6 15 = some ⟨[], true, 9, [15]⟩ := by
    unfold wait_if_needed
    rw [hp]
    norm_num
  exact forced_wait_full_reset ⟨1, 10⟩ h (by rw [hp]; norm_num)
    (by rw [hp]; norm_num)

/-- C5: starting from an empty history, any `N ≤ max_calls` acquisitions
issued with no delay between them (all time readings equal) all succeed, none
of them sleeps, and the history records the `N` calls. -/
theorem within_limit_never_blocks (rl : RateLimiter)
    (h1 : 1 ≤ rl.max_calls) (h2 : 0 < rl.period) (τ : ℚ)
    (N : ℕ) (hN : (N : ℤ) ≤ rl.max_calls) :
    repeatCalls rl τ N = some (List.replicate N τ, false) := by
  induction N with
  | zero => rfl
  | succ n ih =>
    have hn : (n : ℤ) ≤ rl.max_calls := by push_cast at hN ⊢; omega
    have ihn := ih hn
    have hprune : prune rl (List.replicate n τ) τ = List.replicate n τ := by
      apply List.filter_eq_self.mpr
      intro a ha
      have haτ : a = τ := List.eq_of_mem_replicate ha
      subst haτ
      simp only [decide_eq_true_eq]
      linarith
    have hnot :
        ¬ rl.max_calls ≤ (((prune rl (List.replicate n τ) τ)).length : ℤ) := by
      rw [hprune]
      simp only [List.length_replicate]
      push_cast at hN ⊢
      omega
    have hw : wait_if_needed rl (List.replicate n τ) τ τ =
        some ⟨prune rl (List.replicate n τ) τ, false, 0,
              prune rl (List.replicate n τ) τ ++ [τ]⟩ := by
      unfold wait_if_needed
      rw [if_neg hnot]
    rw [repeatCalls, ihn]
    dsimp only
    rw [hw]
    dsimp only
    rw [hprune, List.replicate_succ']
    simp

/-- Witness for C5: three immediate calls against `max_calls = 3` all pass
without sleeping. -/
theorem within_limit_never_blocks_witness :
    repeatCalls ⟨3, 10⟩ 0 3 = some (List.replicate 3 0, false) :=
  within_limit_never_blocks ⟨3, 10⟩ (by decide) (by norm_num) 0 3 (by decide)

/-- C8: under the precondition `max_calls ≥ 1`, `period > 0`,
`wait_if_needed` never raises from any state: the `self.calls[0]` subscript
on the at-limit branch is always in bounds, so the modelled call always
returns a result. -/
theorem wait_if_needed_never_raises (rl : RateLimiter)
    (h1 : 1 ≤ rl.max_calls) (h2 : 0 < rl.period)
    (calls : List ℚ) (now tAfter : ℚ) :
    (wait_if_needed rl calls now tAfter).isSome = true := by
  unfold wait_if_needed
  split
  · rename_i hc
    cases hp : prune rl calls now with
    | nil =>
      rw [hp] at hc
      simp only [List.length_nil, Nat.cast_zero] at hc
      omega
    | cons c cs =>
      simp only [List.getElem?_cons_zero]
      split <;> rfl
  · rfl

/-- Witness for C8: a concrete at-limit state still yields a result. -/
theorem wait_if_needed_never_raises_witness :
    (wait_if_needed ⟨1, 10⟩ [5] 6 15).isSome = true :=
  wait_if_needed_never_raises ⟨1, 10⟩ (by decide) (by norm_num) [5] 6 15

/-! ## Helper lemmas: field conversion -/

/-- Shape of the numeric/passthrough tail: it yields an integer, a float,
the original string unchanged, or the uncaught overflow error. -/
theorem numericOrString_cases (f v : PyStr) :
    (∃ n, numericOrString f v = Except.ok (Value.vInt n)) ∨
    (∃ pf, numericOrString f v = Except.ok (Value.vFloat pf)) ∨
    numericOrString f v = Except.ok (Value.vStr v) ∨
    numericOrString f v = Except.error PyError.overflowError := by
  unfold numericOrString
  split
  · split
    · split
      · exact Or.inl ⟨_, rfl⟩
      · exact Or.inr (Or.inr (Or.inr rfl))
      · exact Or.inr (Or.inr (Or.inl rfl))
      · exact Or.inr (Or.inr (Or.inl rfl))
    · split
      · exact Or.inr (Or.inl ⟨_, rfl⟩)
      · exact Or.inr (Or.inr (Or.inl rfl))
  · exact Or.inr (Or.inr (Or.inl rfl))

/-- The numeric/passthrough tail never yields `None`. -/
theorem numericOrString_ne_vNone (f v : PyStr) :
    numericOrString f v ≠ Except.ok Value.vNone := by
  rcases numericOrString_cases f v with ⟨n, h⟩ | ⟨pf, h⟩ | h | h <;> simp [h]

/-- The numeric/passthrough tail never yields a date. -/
theorem numericOrString_ne_vDate (f v : PyStr) (y m d : ℕ) :
    numericOrString f v ≠ Except.ok (Value.vDate y m d) := by
  rcases numericOrString_cases f v with ⟨n, h⟩ | ⟨pf, h⟩ | h | h <;> simp [h]

/-- When the value is not nullish and the date branch does not convert
(no date-pattern match, or the guarded parse fails), `convert_field` is the
numeric/passthrough tail. -/
theorem convert_field_eq_numericOrString (f v : PyStr)
    (hnn : ¬(v = [] ∨ pyStrip v = [] ∨ pyStrip v = "-".toList))
    (hdate : dateFieldMatch f DATE_FIELD_PATTERNS = false ∨
      strptimeYmd v = none) :
    convert_field f v = numericOrString f v := by
  unfold convert_field
  split
  · rename_i hcond
    simp only [Bool.or_eq_true, decide_eq_true_eq, or_assoc] at hcond
    exact absurd hcond hnn
  · split
    · rename_i hdf
      cases hdate with
      | inl h => rw [h] at hdf; exact absurd hdf (by simp)
      | inr h => rw [h]
    · rfl

/-- C6: `convert_field` returns `None` exactly when the value is empty,
all-whitespace, or trims to exactly a dash; this first check short-circuits
every later rule. -/
theorem null_rule_iff (f v : PyStr) :
    convert_field f v = Except.ok Value.vNone ↔
      (v = [] ∨ pyStrip v = [] ∨ pyStrip v = "-".toList) := by
  unfold convert_field
  split
  · rename_i hcond
    simp only [Bool.or_eq_true, decide_eq_true_eq, or_assoc] at hcond
    simpa using hcond
  · rename_i hcond
    simp only [Bool.or_eq_true, decide_eq_true_eq, or_assoc] at hcond
    constructor
    · intro h
      exfalso
      split at h
      · split at h
        · simp at h
        · exact numericOrString_ne_vNone f v h
      · exact numericOrString_ne_vNone f v h
    · intro h
      exact absurd h hcond

/-- The guarded date parse succeeds exactly on an 8-character all-digit
value denoting a valid calendar date. -/
theorem strptimeYmd_isSome_iff (v : PyStr) :
    (strptimeYmd v).isSome = true ↔
      (v.length = 8 ∧ v.all Char.isDigit = true ∧
        isValidYmd (natOfDigits (v.take 4)) (natOfDigits ((v.drop 4).take 2))
          (natOfDigits (v.drop 6)) = true) := by
  unfold strptimeYmd
  split
  · rename_i hguard
    simp only [Bool.and_eq_true, decide_eq_true_eq] at hguard
    split
    · rename_i hvalid
      simp [hguard.1, hguard.2, hvalid]
    · rename_i hvalid
      simp [hvalid]
  · rename_i hguard
    simp only [Bool.and_eq_true, decide_eq_true_eq] at hguard
    constructor
    · intro h
      simp at h
    · intro h
      exact absurd ⟨h.1, h.2.1⟩ hguard

/-- C2: on a date-pattern field with a non-null value, `convert_field`
returns a parsed date exactly when the value is exactly 8 characters, all
digits, and a valid `YYYYMMDD` calendar date; on any date-parse failure it
falls through to the numeric and string rules instead of returning early. -/
theorem date_rule_exact (f v : PyStr)
    (hd : dateFieldMatch f DATE_FIELD_PATTERNS = true)
    (hnn : ¬(v = [] ∨ pyStrip v = [] ∨ pyStrip v = "-".toList)) :
    (∀ y m d, strptimeYmd v = some (y, m, d) →
        convert_field f v = Except.ok (Value.vDate y m d)) ∧
    ((∃ y m d, convert_field f v = Except.ok (Value.vDate y m d)) ↔
      (v.length = 8 ∧ v.all Char.isDigit = true ∧
        isValidYmd (natOfDigits (v.take 4)) (natOfDigits ((v.drop 4).take 2))
          (natOfDigits (v.drop 6)) = true)) ∧
    (strptimeYmd v = none → convert_field f v = numericOrString f v) := by
  have hcf : convert_field f v = (match strptimeYmd v with
      | some (y, m, d) => Except.ok (Value.vDate y m d)
      | none => numericOrString f v) := by
    unfold convert_field
    split
    · rename_i hcond
      simp only [Bool.or_eq_true, decide_eq_true_eq, or_assoc] at hcond
      exact absurd hcond hnn
    · rfl
  refine ⟨?_, ?_, ?_⟩
  · intro y m d h
    rw [hcf, h]
  · rw [← strptimeYmd_isSome_iff]
    constructor
    · rintro ⟨y, m, d, h⟩
      rw [hcf] at h
      cases hs : strptimeYmd v with
      | none =>
        rw [hs] at h
        exact absurd h (numericOrString_ne_vDate f v y m d)
      | some t => simp [hs]
    · intro h
      rw [Option.isSome_iff_exists] at h
      obtain ⟨⟨y, m, d⟩, hs⟩ := h
      exact ⟨y, m, d, by rw [hcf, hs]⟩
  · intro h
    rw [hcf, h]

/-- Witness for C2: `convert_field("BAS_DD", "20240101")` is the date
2024-01-01. -/
theorem date_rule_exact_witness :
    convert_field "BAS_DD".toList "20240101".toList =
      Except.ok (Value.vDate 2024 1 1) :=
  (date_rule_exact "BAS_DD".toList "20240101".toList (by decide)
      (by decide)).1 2024 1 1 (by decide)

/-- C3 counterexample: on the volume field `ACC_TRDVOL` the value `"inf"`
parses as an infinite float, and `convert_field` raises an uncaught
`OverflowError` (from `int(float("inf"))`) instead of returning the original
string as the claim requires for a failed integer parse. -/
theorem numeric_rule_inf_counterexample :
    convert_field "ACC_TRDVOL".toList "inf".toList ≠
        Except.ok (Value.vStr "inf".toList) ∧
      convert_field "ACC_TRDVOL".toList "inf".toList =
        Except.error PyError.overflowError := by
  exact ⟨by decide, by decide⟩

/-- C3 (amended): on a non-null value not converted by the date rule, with a
first matching numeric category, `convert_field` strips commas and
whitespace and then: for `volume`/`count` it truncates the parsed float
(the correctly rounded binary64 value) toward zero to an integer, except
that an infinite intermediate — an `inf`/`infinity` literal or a value
overflowing the double range, such as `"1e999"` — raises an uncaught
`OverflowError`, and a NaN or unparsable value returns the original
untrimmed string; for every other category it parses as a float, returning
the original untrimmed string when the parse fails. -/
theorem numeric_rule_amended (f v cat : PyStr)
    (hnn : ¬(v = [] ∨ pyStrip v = [] ∨ pyStrip v = "-".toList))
    (hdate : dateFieldMatch f DATE_FIELD_PATTERNS = false ∨
      strptimeYmd v = none)
    (hcat : findNumericCategory (pyUpper f) NUMERIC_FIELD_PATTERNS =
      some cat) :
    ((cat = "volume".toList ∨ cat = "count".toList) →
      (∀ q, pyFloatParse (pyStrip (v.filter (fun c => c ≠ ','))) =
          some (PyFloat.finite q) →
        convert_field f v = Except.ok (Value.vInt (pyTrunc q))) ∧
      (∀ b, pyFloatParse (pyStrip (v.filter (fun c => c ≠ ','))) =
          some (PyFloat.inf b) →
        convert_field f v = Except.error PyError.overflowError) ∧
      ((pyFloatParse (pyStrip (v.filter (fun c => c ≠ ','))) =
            some PyFloat.nan ∨
        pyFloatParse (pyStrip (v.filter (fun c => c ≠ ','))) = none) →
        convert_field f v = Except.ok (Value.vStr v))) ∧
    (¬(cat = "volume".toList ∨ cat = "count".toList) →
      (∀ pf, pyFloatParse (pyStrip (v.filter (fun c => c ≠ ','))) =
          some pf →
        convert_field f v = Except.ok (Value.vFloat pf)) ∧
      (pyFloatParse (pyStrip (v.filter (fun c => c ≠ ','))) = none →
        convert_field f v = Except.ok (Value.vStr v))) := by
  have hcf := convert_field_eq_numericOrString f v hnn hdate
  rw [hcf]
  unfold numericOrString
  simp only [hcat]
  refine ⟨fun hvc => ?_, fun hvc => ?_⟩
  · have hb : (decide (cat = "volume".toList) ||
        decide (cat = "count".toList)) = true := by
      rcases hvc with h | h <;> simp [h]
    rw [if_pos hb]
    refine ⟨fun q hq => by rw [hq], fun b hb2 => by rw [hb2], fun hnf => ?_⟩
    rcases hnf with h | h <;> rw [h]
  · have hb : ¬(decide (cat = "volume".toList) ||
        decide (cat = "count".toList)) = true := by
      simp only [Bool.or_eq_true, decide_eq_true_eq]
      exact hvc
    rw [if_neg hb]
    exact ⟨fun pf hpf => by rw [hpf], fun hnf => by rw [hnf]⟩

/-- Witness for C3 (amended): the volume field accepts `"123456.0"` and
truncates it to the integer `123456`. -/
theorem numeric_rule_amended_witness :
    convert_field "ACC_TRDVOL".toList "123456.0".toList =
      Except.ok (Value.vInt 123456) := by
  have h := ((numeric_rule_amended "ACC_TRDVOL".toList "123456.0".toList
      "volume".toList (by decide) (Or.inl (by decide)) (by decide)).1
      (Or.inl rfl)).1 (mkRat 123456 1) (by decide)
  rw [h]
  decide

/-- C7: the never-raises claim fails in the code — on a volume/count field a
value whose cleaned form parses to an infinite float makes `int(float(x))`
raise `OverflowError`, which the `except (ValueError, AttributeError)`
clause does not catch, so the conversion aborts. -/
theorem convert_field_overflow_bug :
    convert_field "ACC_TRDVOL".toList "inf".toList =
      Except.error PyError.overflowError := by
  decide

/-- On success, `convert_record` preserves the ordered field-name list. -/
theorem convert_record_ok_fst (r : List (PyStr × PyStr)) :
    ∀ out, convert_record r = Except.ok out →
      out.map Prod.fst = r.map Prod.fst := by
  induction r with
  | nil =>
    intro out h
    simp only [convert_record] at h
    simp only [Except.ok.injEq] at h
    subst h
    rfl
  | cons p rest ih =>
    intro out h
    obtain ⟨f, v⟩ := p
    simp only [convert_record] at h
    cases hx : convert_field f v with
    | error e => rw [hx] at h; simp at h
    | ok x =>
      rw [hx] at h
      cases hxs : convert_record rest with
      | error e => rw [hxs] at h; simp at h
      | ok xs =>
        rw [hxs] at h
        have hout : (f, x) :: xs = out := by simpa using h
        subst hout
        simp [ih xs hxs]

/-- On success, each entry of a converted record pairs the original field
name with the `convert_field` result of its original value. -/
theorem convert_record_ok_get (r : List (PyStr × PyStr)) :
    ∀ out, convert_record r = Except.ok out →
      ∀ (i : ℕ) fi vi, r[i]? = some (fi, vi) →
        ∃ w, out[i]? = some (fi, w) ∧ convert_field fi vi = Except.ok w := by
  induction r with
  | nil => intro out h i fi vi hi; simp at hi
  | cons p rest ih =>
    intro out h i fi vi hi
    obtain ⟨f, v⟩ := p
    simp only [convert_record] at h
    cases hx : convert_field f v with
    | error e => rw [hx] at h; simp at h
    | ok x =>
      rw [hx] at h
      cases hxs : convert_record rest with
      | error e => rw [hxs] at h; simp at h
      | ok xs =>
        rw [hxs] at h
        have hout : (f, x) :: xs = out := by simpa using h
        subst hout
        cases i with
        | zero =>
          simp only [List.getElem?_cons_zero, Option.some.injEq] at hi ⊢
          obtain ⟨h1, h2⟩ := Prod.mk.injEq .. ▸ hi
          subst h1
          subst h2
          exact ⟨x, rfl, hx⟩
        | succ n =>
          simp only [List.getElem?_cons_succ] at hi ⊢
          exact ih xs hxs n fi vi hi

/-- On success, `convert_response` preserves length and converts the records
pointwise, in order. -/
theorem convert_response_ok (rs : List (List (PyStr × PyStr))) :
    ∀ outs, convert_response rs = Except.ok outs →
      outs.length = rs.length ∧
      ∀ (i : ℕ) ri, rs[i]? = some ri →
        ∃ oi, outs[i]? = some oi ∧ convert_record ri = Except.ok oi := by
  induction rs with
  | nil =>
    intro outs h
    simp only [convert_response, Except.ok.injEq] at h
    subst h
    exact ⟨rfl, by intro i ri hi; simp at hi⟩
  | cons r rest ih =>
    intro outs h
    simp only [convert_response] at h
    cases hx : convert_record r with
    | error e => rw [hx] at h; simp at h
    | ok x =>
      rw [hx] at h
      cases hxs : convert_response rest with
      | error e => rw [hxs] at h; simp at h
      | ok xs =>
        rw [hxs] at h
        have hout : x :: xs = outs := by simpa using h
        subst hout
        obtain ⟨hlen, hget⟩ := ih xs hxs
        refine ⟨by simp [hlen], ?_⟩
        intro i ri hi
        cases i with
        | zero =>
          simp only [List.getElem?_cons_zero, Option.some.injEq] at hi ⊢
          subst hi
          exact ⟨x, rfl, hx⟩
        | succ n =>
          simp only [List.getElem?_cons_succ] at hi ⊢
          exact hget n ri hi

/-- C9: `convert_record` maps `convert_field` independently over every entry,
preserving the ordered field-name set (with the empty record mapping to the
empty record), and `convert_response` maps `convert_record` over a sequence
preserving its length and order, with empty input giving empty output. -/
theorem record_response_shape :
    convert_response [] = Except.ok [] ∧
    (∀ r out, convert_record r = Except.ok out →
      out.map Prod.fst = r.map Prod.fst) ∧
    (∀ r out, convert_record r = Except.ok out →
      ∀ (i : ℕ) fi vi, r[i]? = some (fi, vi) →
        ∃ w, out[i]? = some (fi, w) ∧ convert_field fi vi = Except.ok w) ∧
    (∀ rs outs, convert_response rs = Except.ok outs →
      outs.length = rs.length ∧
      ∀ (i : ℕ) ri, rs[i]? = some ri →
        ∃ oi, outs[i]? = some oi ∧ convert_record ri = Except.ok oi) :=
  ⟨rfl, convert_record_ok_fst, convert_record_ok_get, convert_response_ok⟩

/-- Witness for C9: a one-field record keeps its field-name list. -/
theorem record_response_shape_witness :
    ([("IDX_NM".toList, Value.vStr "KOSPI".toList)].map Prod.fst :
        List PyStr) =
      [("IDX_NM".toList, "KOSPI".toList)].map Prod.fst :=
  record_response_shape.2.1 [("IDX_NM".toList, "KOSPI".toList)]
    [("IDX_NM".toList, Value.vStr "KOSPI".toList)] (by decide)

/-- C10: a value consisting of a valid 8-digit date surrounded by leading or
trailing whitespace is never converted to a date — the exactly-8-characters
check runs on the raw untrimmed value (stripping happens only inside the
numeric rule), so such a value falls through to the numeric/string rules. -/
theorem padded_date_falls_through (f w₁ core w₂ : PyStr)
    (hws1 : ∀ c ∈ w₁, pyIsSpace c = true)
    (hws2 : ∀ c ∈ w₂, pyIsSpace c = true)
    (hne : w₁ ≠ [] ∨ w₂ ≠ [])
    (hcore : (strptimeYmd core).isSome = true) :
    ∀ y m d, convert_field f (w₁ ++ core ++ w₂) ≠
      Except.ok (Value.vDate y m d) := by
  intro y m d hcf
  have hclen : core.length = 8 := ((strptimeYmd_isSome_iff core).mp hcore).1
  have hlen : (w₁ ++ core ++ w₂).length ≠ 8 := by
    simp only [List.length_append, hclen]
    rcases hne with h | h
    · have hpos : 0 < w₁.length := List.length_pos.mpr h
      omega
    · have hpos : 0 < w₂.length := List.length_pos.mpr h
      omega
  have hst : strptimeYmd (w₁ ++ core ++ w₂) = none := by
    unfold strptimeYmd
    rw [if_neg]
    simp only [Bool.and_eq_true, decide_eq_true_eq, not_and]
    intro h
    exact absurd h hlen
  unfold convert_field at hcf
  split at hcf
  · simp at hcf
  · split at hcf
    · rw [hst] at hcf
      exact numericOrString_ne_vDate f _ y m d hcf
    · exact numericOrString_ne_vDate f _ y m d hcf

/-- Witness for C10: a leading space defeats the date rule for an otherwise
valid `"20240101"` on a date field. -/
theorem padded_date_falls_through_witness :
    convert_field "BAS_DD".toList
        ((" ".toList ++ "20240101".toList ++ []) : PyStr) ≠
      Except.ok (Value.vDate 2024 1 1) :=
  padded_date_falls_through "BAS_DD".toList " ".toList "20240101".toList []
    (by decide) (by decide) (Or.inl (by decide)) (by decide) 2024 1 1
